import Mathlib

/-!
Verification development for the grapl graph-expression language.

The definitions below are a shallow embedding of the Rust sources:

- `Expr`, `Stmt` mirror `src/lib.rs` (`Expr`, `Stmt`); a `Node` is its
  underlying identifier string.
- `nodes`, `contains_node` mirror `Expr::nodes` / `Expr::contains_node`
  from `src/lib.rs`. The itertools chain `sorted().dedup()` is modelled
  by an insertion sort over the lexicographic character order (the
  identifiers are ASCII, where this coincides with the byte order used
  by the Rust `Ord` on `String`) followed by removal of adjacent
  duplicates.
- `dedup`, `is_norm_subgraph`, `flatten`/`normalize` mirror
  `src/normal.rs`. In the Rust code `flatten` and `normalize` are
  mutually recursive through the members of a grouping, and the second
  `flatten` pass of `normalize` runs on a value that is not a subterm of
  the input, so the Lean embedding threads an explicit fuel parameter
  (`Nat`); `none` means either fuel exhaustion or the `unreachable!`
  panic branch of `Expr::flatten`. All claims about normalization are
  settled at concrete inputs with ample fuel, where the fueled function
  computes exactly the Rust result.
- `Config`, `Error`, `Env`, `Env.lookup`, `Env.insert`, `Expr.resolve`,
  `Stmt.resolve`, `resolveStmts` mirror `src/resolve.rs`. The Rust
  `HashMap<Node, Expr>` is modelled by a function `Node → Option Expr`;
  `Env::insert` takes `&mut self` and returns `Result<(), Error>`, which
  is modelled by returning the pair of the `Except` result and the
  environment after the call.
- `substSpec` is the only definition not translated from the source: it
  is the pure substitution function that the specification claims
  `resolve` implements, used to state that refinement.
-/

namespace Grapl

/-- Identifier underlying `Node(String)` from src/lib.rs. -/
abbrev Node := String

/-- The expression tree from src/lib.rs: `Expr::Node`, `Expr::Connected(Vec<Expr>)`,
`Expr::Disconnected(Vec<Expr>)`. -/
inductive Expr where
  | node (n : Node)
  | connected (es : List Expr)
  | disconnected (es : List Expr)

mutual

/-- Decidable equality on lists of expressions; component of `Expr.decEq`. -/
def Expr.decEqList : (as bs : List Expr) → Decidable (as = bs)
  | [], [] => .isTrue rfl
  | [], _ :: _ => .isFalse (fun h => List.noConfusion h)
  | _ :: _, [] => .isFalse (fun h => List.noConfusion h)
  | a :: as, b :: bs =>
    match Expr.decEq a b with
    | .isFalse h => .isFalse (fun he => List.noConfusion he (fun h1 _ => h h1))
    | .isTrue h1 =>
      match Expr.decEqList as bs with
      | .isTrue h2 => .isTrue (by rw [h1, h2])
      | .isFalse h => .isFalse (fun he => List.noConfusion he (fun _ h2 => h h2))

/-- Decidable equality on expressions, matching `#[derive(PartialEq, Eq)]` on `Expr`. -/
def Expr.decEq : (a b : Expr) → Decidable (a = b)
  | .node a, .node b =>
    match String.decEq a b with
    | .isTrue h => .isTrue (by rw [h])
    | .isFalse h => .isFalse (fun he => Expr.noConfusion he (fun h1 => h h1))
  | .node _, .connected _ => .isFalse (fun h => Expr.noConfusion h)
  | .node _, .disconnected _ => .isFalse (fun h => Expr.noConfusion h)
  | .connected as, .connected bs =>
    match Expr.decEqList as bs with
    | .isTrue h => .isTrue (by rw [h])
    | .isFalse h => .isFalse (fun he => Expr.noConfusion he (fun h1 => h h1))
  | .connected _, .node _ => .isFalse (fun h => Expr.noConfusion h)
  | .connected _, .disconnected _ => .isFalse (fun h => Expr.noConfusion h)
  | .disconnected as, .disconnected bs =>
    match Expr.decEqList as bs with
    | .isTrue h => .isTrue (by rw [h])
    | .isFalse h => .isFalse (fun he => Expr.noConfusion he (fun h1 => h h1))
  | .disconnected _, .node _ => .isFalse (fun h => Expr.noConfusion h)
  | .disconnected _, .connected _ => .isFalse (fun h => Expr.noConfusion h)

end

instance : DecidableEq Expr := Expr.decEq

instance {e a : Type} [DecidableEq e] [DecidableEq a] : DecidableEq (Except e a) := fun x y =>
  match x, y with
  | .error u, .error v =>
    if h : u = v then .isTrue (by rw [h]) else .isFalse (fun he => by cases he; exact h rfl)
  | .ok u, .ok v =>
    if h : u = v then .isTrue (by rw [h]) else .isFalse (fun he => by cases he; exact h rfl)
  | .error _, .ok _ => .isFalse (fun he => by cases he)
  | .ok _, .error _ => .isFalse (fun he => by cases he)

/-- Lexicographic order on character lists, the order underlying the Rust
`Ord` for `String` on the ASCII identifiers produced by the parser. -/
def charListLt : List Char → List Char → Bool
  | [], [] => false
  | [], _ :: _ => true
  | _ :: _, [] => false
  | a :: as, b :: bs =>
    if a.val < b.val then true
    else if b.val < a.val then false
    else charListLt as bs

/-- Comparison of node identifiers, mirroring `Ord` on `Node(String)`. -/
def nodeLt (a b : Node) : Bool := charListLt a.data b.data

/-- Insertion step of the sort modelling itertools `sorted()` in `Expr::nodes`. -/
def insertSorted (x : Node) : List Node → List Node
  | [] => [x]
  | y :: rest => if nodeLt y x then y :: insertSorted x rest else x :: y :: rest

/-- Ascending sort of node names, modelling itertools `sorted()` in `Expr::nodes`. -/
def sortNodes (l : List Node) : List Node := l.foldr insertSorted []

/-- Removal of adjacent duplicates, modelling itertools `dedup()` in `Expr::nodes`. -/
def dedupAdj : List Node → List Node
  | [] => []
  | [a] => [a]
  | a :: b :: rest => if a = b then dedupAdj (b :: rest) else a :: dedupAdj (b :: rest)

mutual

/-- Concatenation of the node lists of the members, the fold in `Expr::nodes`. -/
def nodesList : List Expr → List Node
  | [] => []
  | e :: rest => nodes e ++ nodesList rest

/-- `Expr::nodes` from src/lib.rs: the leaf name for a node, and for either
grouping the concatenated member node lists, sorted with duplicates removed. -/
def nodes : Expr → List Node
  | .node n => [n]
  | .connected es => dedupAdj (sortNodes (nodesList es))
  | .disconnected es => dedupAdj (sortNodes (nodesList es))

end

mutual

/-- The `any` fold over members in `Expr::contains_node`. -/
def contains_nodeList : List Expr → Node → Bool
  | [], _ => false
  | e :: rest, x => contains_node e x || contains_nodeList rest x

/-- `Expr::contains_node` from src/lib.rs. -/
def contains_node : Expr → Node → Bool
  | .node n, x => x = n
  | .connected es, x => contains_nodeList es x
  | .disconnected es, x => contains_nodeList es x

end

/-- `Expr::is_norm_subgraph` from src/normal.rs: every node of the first
expression occurs among the nodes of the second. -/
def is_norm_subgraph (a other : Expr) : Bool :=
  (nodes a).all (fun n => (nodes other).contains n)

/-- The `Action` enum local to `Expr::dedup` in src/normal.rs. -/
inductive Action where
  | insert
  | swap
  | skip

/-- The body of the `dedup_exprs!` macro in `Expr::dedup`: one pass over the
members, accumulating `fresh`; for each member the last applicable action wins
(skip when the member is a node subgraph of an accumulated entry, swap when an
accumulated entry is a node subgraph of the member), and `Action::Swap`
removes the final element of `fresh` (`fresh.remove(fresh.len() - 1)`). -/
def dedupList (exprs : List Expr) : List Expr :=
  exprs.foldl
    (fun fresh expr =>
      let action := fresh.foldl
        (fun action f =>
          if is_norm_subgraph expr f then Action.skip
          else if is_norm_subgraph f expr then Action.swap
          else action)
        Action.insert
      match action with
      | Action.insert => fresh ++ [expr]
      | Action.swap => fresh.dropLast ++ [expr]
      | Action.skip => fresh)
    []

/-- `Expr::dedup` from src/normal.rs. -/
def dedup : Expr → Expr
  | .node n => .node n
  | .connected exprs => .connected (dedupList exprs)
  | .disconnected exprs => .disconnected (dedupList exprs)

/-- One iteration of the member loop in the `Expr::Connected` case of
`Expr::flatten`, acting on the accumulated list `dcs` of connected groups with
the already-normalized member; `none` models the `unreachable!` panic on a
`Disconnected` nested directly inside a normalized `Disconnected`. -/
def connStep (dcs0 : List (List Expr)) (ne : Expr) : Option (List (List Expr)) :=
  let dcs := if dcs0.isEmpty then [[]] else dcs0
  match ne with
  | .node n => some (dcs.map (fun dc => dc ++ [Expr.node n]))
  | .connected cexprs => some (dcs.map (fun dc => dc ++ cexprs))
  | .disconnected dexprs =>
    match dcs.mapM (fun dc => dexprs.mapM (fun dexpr =>
      match dexpr with
      | .node n => some (dc ++ [Expr.node n])
      | .connected cs => some (dc ++ cs)
      | .disconnected _ => none)) with
    | none => none
    | some freshs => some freshs.flatten

/-- Assembly of the `Expr::Connected` case of `Expr::flatten` from the
normalized members: fold `connStep`, then collapse a single group to a
`Connected` (or its sole member), otherwise build a `Disconnected` of
`Connected` groups. -/
def flatConnected (ns : List Expr) : Option Expr :=
  match ns.foldlM connStep [] with
  | none => none
  | some [cs] =>
    match cs with
    | [c] => some c
    | cs => some (.connected cs)
  | some dcs => some (.disconnected (dcs.map Expr.connected))

/-- The `Expr::Disconnected` case of `Expr::flatten` from the normalized
members: splice nested disconnected members, then collapse a singleton. -/
def flatDisconnected (ns : List Expr) : Expr :=
  let ds := ns.foldl
    (fun ds ne =>
      match ne with
      | .node n => ds ++ [Expr.node n]
      | .connected cs => ds ++ [Expr.connected cs]
      | .disconnected dexprs => ds ++ dexprs)
    []
  match ds with
  | [d] => d
  | ds => .disconnected ds

mutual

/-- Normalization of each member of a grouping, as performed inside the loops
of `Expr::flatten`; fuel decreases on every call. -/
def mapNormalize : Nat → List Expr → Option (List Expr)
  | 0, _ => none
  | _ + 1, [] => some []
  | fuel + 1, e :: rest =>
    match normalize fuel e, mapNormalize fuel rest with
    | some ne, some nrest => some (ne :: nrest)
    | _, _ => none

/-- `Expr::flatten` from src/normal.rs, with fuel. -/
def flatten : Nat → Expr → Option Expr
  | 0, _ => none
  | _ + 1, .node n => some (.node n)
  | fuel + 1, .connected es =>
    match mapNormalize fuel es with
    | none => none
    | some ns => flatConnected ns
  | fuel + 1, .disconnected es =>
    match mapNormalize fuel es with
    | none => none
    | some ns => some (flatDisconnected ns)

/-- `Normalize for Expr` from src/normal.rs: `self.flatten().dedup().flatten()`,
with fuel. -/
def normalize : Nat → Expr → Option Expr
  | 0, _ => none
  | fuel + 1, e =>
    match flatten fuel e with
    | none => none
    | some f1 => flatten fuel (dedup f1)

end

/-- `Config` from src/resolve.rs. -/
structure Config where
  shadowing : Bool
  recursion : Bool
deriving DecidableEq

/-- `Config::default`: both policies disallowed. -/
def Config.default : Config := { shadowing := false, recursion := false }

/-- `Config::with_shadowing`. -/
def Config.with_shadowing (c : Config) : Config := { c with shadowing := true }

/-- `Config::with_recursion`. -/
def Config.with_recursion (c : Config) : Config := { c with recursion := true }

/-- `Error` from src/resolve.rs. -/
inductive Error where
  | shadowing
  | recursion
deriving DecidableEq

/-- `Env` from src/resolve.rs: the binding map together with the shared
configuration; the `HashMap` is modelled as a function into `Option Expr`. -/
structure Env where
  map : Node → Option Expr
  config : Config

/-- `Env::new`. -/
def Env.new (config : Config) : Env := { map := fun _ => none, config := config }

/-- `Env::lookup`: the bound expression if present, else the node itself. -/
def Env.lookup (env : Env) (node : Node) : Expr :=
  match env.map node with
  | some expr => expr
  | none => .node node

/-- `Env::insert`: shadowing check first, then recursion check, else overwrite
the binding. The returned environment is the state of the Rust `&mut self`
after the call. -/
def Env.insert (env : Env) (node : Node) (expr : Expr) : Except Error Unit × Env :=
  if !env.config.shadowing && (env.map node).isSome then
    (.error .shadowing, env)
  else if !env.config.recursion && contains_node expr node then
    (.error .recursion, env)
  else
    (.ok (), { env with map := fun k => if k = node then some expr else env.map k })

mutual

/-- The member loop of the `inner!` macro in `Resolve for Expr`. -/
def resolveList : List Expr → Env → Except Error (List Expr)
  | [], _ => .ok []
  | e :: rest, env =>
    match Expr.resolve e env with
    | .error err => .error err
    | .ok r =>
      match resolveList rest env with
      | .error err => .error err
      | .ok rs => .ok (r :: rs)

/-- `Resolve for Expr` from src/resolve.rs: a node resolves to its lookup,
groupings resolve their members and rebuild the same grouping kind. The
body of `Expr::resolve` never constructs an error and never mutates the
environment, so the environment is passed by value. -/
def Expr.resolve : Expr → Env → Except Error Expr
  | .node n, env => .ok (env.lookup n)
  | .connected es, env =>
    match resolveList es env with
    | .error err => .error err
    | .ok fresh => .ok (.connected fresh)
  | .disconnected es, env =>
    match resolveList es env with
    | .error err => .error err
    | .ok fresh => .ok (.disconnected fresh)

end

/-- `Stmt` from src/lib.rs. -/
inductive Stmt where
  | assign (node : Node) (expr : Expr)
deriving DecidableEq

/-- `Resolve for Stmt` from src/resolve.rs: resolve the right-hand side, then
insert the binding; the environment of the pair is the state of the Rust
`&mut Env` after the call. -/
def Stmt.resolve : Stmt → Env → Except Error Stmt × Env
  | .assign node expr, env =>
    match Expr.resolve expr env with
    | .error err => (.error err, env)
    | .ok resolved =>
      match env.insert node resolved with
      | (.error err, env1) => (.error err, env1)
      | (.ok _, env1) => (.ok (.assign node resolved), env1)

/-- `Resolve for Vec<Stmt>` from src/resolve.rs: resolve the statements in
order, threading the environment, stopping at the first error. -/
def resolveStmts : List Stmt → Env → Except Error (List Stmt) × Env
  | [], env => (.ok [], env)
  | stmt :: rest, env =>
    match Stmt.resolve stmt env with
    | (.error err, env1) => (.error err, env1)
    | (.ok s, env1) =>
      match resolveStmts rest env1 with
      | (.error err, env2) => (.error err, env2)
      | (.ok srest, env2) => (.ok (s :: srest), env2)

mutual

/-- Member map of `substSpec`. -/
def substSpecList : List Expr → Env → List Expr
  | [], _ => []
  | e :: rest, env => substSpec e env :: substSpecList rest env

/-- Modelled from the spec: the pure one-level substitution that section 4.3
claims `resolve` performs on expressions — replace each leaf by its current
binding when one exists, leave it unchanged otherwise, rebuild the same
grouping kind, and never normalize. Used to state the refinement claims
about `Expr::resolve`. -/
def substSpec : Expr → Env → Expr
  | .node n, env => env.lookup n
  | .connected es, env => .connected (substSpecList es env)
  | .disconnected es, env => .disconnected (substSpecList es env)

end

/-- Leaf expression A. -/
def eA : Expr := .node "A"

/-- Leaf expression B. -/
def eB : Expr := .node "B"

/-- Leaf expression C. -/
def eC : Expr := .node "C"

/-- Leaf expression D. -/
def eD : Expr := .node "D"

/-- Leaf expression E. -/
def eE : Expr := .node "E"

/-- The disconnected expression with components AB, CD, ABE, written
in grapl syntax as the bracketed list of the three braced groups. On this
input the swap action of `Expr::dedup` fires while the subsumed component
AB is not the last accumulated one, so `dedup` removes CD instead of AB. -/
def exInput : Expr :=
  .disconnected [.connected [eA, eB], .connected [eC, eD], .connected [eA, eB, eE]]

/-- What the code computes as the normal form of `exInput`: the disconnected
expression with components AB and ABE; the nodes C and D are lost and the
component AB is subsumed by its sibling. -/
def exOutput : Expr :=
  .disconnected [.connected [eA, eB], .connected [eA, eB, eE]]

/-- An environment with G bound to the leaf B under the default
configuration, used to witness the error paths of `Env::insert`. -/
def envG : Env :=
  { map := fun k => if k = "G" then some (.node "B") else none, config := Config.default }

mutual

theorem resolveList_eq_subst : ∀ es env, resolveList es env = .ok (substSpecList es env)
  | [], _ => rfl
  | e :: rest, env => by
    simp only [resolveList, Expr.resolve_eq_subst e env, resolveList_eq_subst rest env,
      substSpecList]

theorem Expr.resolve_eq_subst : ∀ e env, Expr.resolve e env = .ok (substSpec e env)
  | .node _, _ => rfl
  | .connected es, env => by
    simp only [Expr.resolve, resolveList_eq_subst es env, substSpec]
  | .disconnected es, env => by
    simp only [Expr.resolve, resolveList_eq_subst es env, substSpec]

end

mutual

theorem substSpecList_empty : ∀ es cfg, substSpecList es (Env.new cfg) = es
  | [], _ => rfl
  | e :: rest, cfg => by
    rw [substSpecList, substSpec_empty e cfg, substSpecList_empty rest cfg]

theorem substSpec_empty : ∀ e cfg, substSpec e (Env.new cfg) = e
  | .node _, _ => rfl
  | .connected es, cfg => by rw [substSpec, substSpecList_empty es cfg]
  | .disconnected es, cfg => by rw [substSpec, substSpecList_empty es cfg]

end

theorem mem_insertSorted : ∀ (l : List Node) (y x : Node),
    x ∈ insertSorted y l ↔ x = y ∨ x ∈ l
  | [], y, x => by simp [insertSorted]
  | z :: rest, y, x => by
    by_cases h : nodeLt z y
    · simp [insertSorted, h, mem_insertSorted rest y x]
      tauto
    · simp [insertSorted, h]

theorem mem_sortNodes : ∀ (l : List Node) (x : Node), x ∈ sortNodes l ↔ x ∈ l
  | [], x => by simp [sortNodes]
  | y :: rest, x => by
    simp only [sortNodes, List.foldr_cons, List.mem_cons]
    rw [show List.foldr insertSorted [] rest = sortNodes rest from rfl]
    rw [mem_insertSorted (sortNodes rest) y x, mem_sortNodes rest x]

theorem mem_dedupAdj : ∀ (l : List Node) (x : Node), x ∈ dedupAdj l ↔ x ∈ l
  | [], x => by simp [dedupAdj]
  | [a], x => by simp [dedupAdj]
  | a :: b :: rest, x => by
    by_cases h : a = b
    · simp [dedupAdj, h, mem_dedupAdj (b :: rest) x]
    · simp [dedupAdj, h, mem_dedupAdj (b :: rest) x]

mutual

theorem mem_nodesList : ∀ (es : List Expr) (x : Node),
    x ∈ nodesList es ↔ contains_nodeList es x = true
  | [], x => by simp [nodesList, contains_nodeList]
  | e :: rest, x => by
    simp [nodesList, contains_nodeList, mem_nodes e x, mem_nodesList rest x]

theorem mem_nodes : ∀ (e : Expr) (x : Node), x ∈ nodes e ↔ contains_node e x = true
  | .node n, x => by simp [nodes, contains_node]
  | .connected es, x => by
    simp [nodes, contains_node, mem_dedupAdj, mem_sortNodes, mem_nodesList es x]
  | .disconnected es, x => by
    simp [nodes, contains_node, mem_dedupAdj, mem_sortNodes, mem_nodesList es x]

end

theorem normStepMono : ∀ fuel,
    (∀ es r, mapNormalize fuel es = some r → mapNormalize (fuel + 1) es = some r)
    ∧ (∀ e r, flatten fuel e = some r → flatten (fuel + 1) e = some r)
    ∧ (∀ e r, normalize fuel e = some r → normalize (fuel + 1) e = some r) := by
  intro fuel
  induction fuel with
  | zero =>
    refine ⟨?_, ?_, ?_⟩ <;> intro x r h <;> simp [mapNormalize, flatten, normalize] at h
  | succ n ih =>
    obtain ⟨ihm, ihf, ihn⟩ := ih
    refine ⟨?_, ?_, ?_⟩
    · intro es r h
      cases es with
      | nil => simpa [mapNormalize] using h
      | cons e rest =>
        rw [mapNormalize] at h ⊢
        rcases he : normalize n e with _ | ne <;> rw [he] at h
        · simp at h
        rcases hr : mapNormalize n rest with _ | nrest <;> rw [hr] at h
        · simp at h
        rw [ihn e ne he, ihm rest nrest hr]
        exact h
    · intro e r h
      cases e with
      | node x => simpa [flatten] using h
      | connected es =>
        rw [flatten] at h ⊢
        rcases hm : mapNormalize n es with _ | ns <;> rw [hm] at h
        · simp at h
        rw [ihm es ns hm]
        exact h
      | disconnected es =>
        rw [flatten] at h ⊢
        rcases hm : mapNormalize n es with _ | ns <;> rw [hm] at h
        · simp at h
        rw [ihm es ns hm]
        exact h
    · intro e r h
      rw [normalize] at h ⊢
      rcases hf : flatten n e with _ | f1 <;> rw [hf] at h
      · simp at h
      rw [ihf e f1 hf]
      exact ihf (dedup f1) r h

theorem normalize_mono (fuel fuel2 : Nat) (h : fuel ≤ fuel2) (e r : Expr)
    (hn : normalize fuel e = some r) : normalize fuel2 e = some r := by
  induction h with
  | refl => exact hn
  | step h2 ih =>
    exact (normStepMono _).2.2 e r ih

theorem normalize_exInput_stable (fuel : Nat) (h : 32 ≤ fuel) :
    normalize fuel exInput = some exOutput :=
  normalize_mono 32 fuel h _ _ (by decide)

theorem normalize_exOutput_stable (fuel : Nat) (h : 32 ≤ fuel) :
    normalize fuel exOutput = some (.connected [eA, eB, eE]) :=
  normalize_mono 32 fuel h _ _ (by decide)

theorem insert_error_eq (env : Env) (id : Node) (e : Expr) (err : Error) (env2 : Env)
    (h : Env.insert env id e = (.error err, env2)) : env2 = env := by
  unfold Env.insert at h
  split at h
  · cases h; rfl
  · split at h
    · cases h; rfl
    · cases h

theorem stmt_resolve_error_eq (env : Env) (s : Stmt) (err : Error) (env2 : Env)
    (h : Stmt.resolve s env = (.error err, env2)) : env2 = env := by
  cases s with
  | assign n ex =>
    simp only [Stmt.resolve, Expr.resolve_eq_subst] at h
    rcases hins : Env.insert env n (substSpec ex env) with ⟨res, env1⟩
    rw [hins] at h
    cases res with
    | error e2 =>
      have h1 : env2 = env1 := by cases h; rfl
      rw [h1]
      exact insert_error_eq env n (substSpec ex env) e2 env1 hins
    | ok u => cases h

/-- C1: the claim states that normalize is idempotent. The code is not: on the
disconnected input with components AB, CD, ABE, one pass of `normalize`
produces the disconnected value with components AB and ABE, and a second pass
produces the single connected group ABE, a different value. The swap action of
`Expr::dedup` removes the final accumulated component (here CD) instead of the
subsumed one (AB). -/
theorem claim_C1_normalize_not_idempotent :
    normalize 32 exInput = some exOutput ∧
    normalize 32 exOutput = some (.connected [eA, eB, eE]) ∧
    Expr.connected [eA, eB, eE] ≠ exOutput := by decide

/-- C2: the claim states that `nodes` is normalization-invariant. On the same
counterexample input the node set before normalization is A,B,C,D,E but the
normalized value only retains A,B,E: the swap action of `Expr::dedup` dropped
the component CD, losing its nodes. -/
theorem claim_C2_nodes_not_invariant :
    normalize 32 exInput = some exOutput ∧
    nodes exInput = ["A", "B", "C", "D", "E"] ∧
    nodes exOutput = ["A", "B", "E"] := by decide

/-- C3: the claim states that after normalization no component node set is a
subset of a sibling node set. On the counterexample input the normalized value
keeps both the component AB and its superset sibling ABE, and the code itself
reports the first a norm subgraph of the second. -/
theorem claim_C3_normal_form_violated :
    normalize 32 exInput =
      some (.disconnected [.connected [eA, eB], .connected [eA, eB, eE]]) ∧
    is_norm_subgraph (.connected [eA, eB]) (.connected [eA, eB, eE]) = true := by decide

/-- C4: the claim states that resolving the sequence G1 = G2; G2 = G1 under a
shadowing-enabled, recursion-disabled configuration succeeds. It does not: the
first statement succeeds and binds G1 to the leaf G2, but the second statement
resolves its right-hand side to the leaf G2 and then `Env::insert` rejects the
binding of G2 to the leaf G2 with a recursion error, because the resolved
right-hand side contains the node being bound. -/
theorem claim_C4_shadowed_mutual_reference_errs :
    (Stmt.resolve (.assign "G1" (.node "G2")) (Env.new (Config.default.with_shadowing))).1 =
      .ok (.assign "G1" (.node "G2")) ∧
    (resolveStmts [.assign "G1" (.node "G2"), .assign "G2" (.node "G1")]
      (Env.new (Config.default.with_shadowing))).1 = .error .recursion := by decide

/-- C5: resolving an assignment first resolves the right-hand side against the
current environment; it fails with a shadowing error when the identifier is
bound and shadowing is disallowed, fails with a recursion error when that
check passed but the resolved right-hand side contains the identifier and
recursion is disallowed, and otherwise records the binding, overwriting any
prior one. The final conjunct identifies the membership test used by the code
with membership in the node set. -/
theorem claim_C5_assignment_resolution (env : Env) (id : Node) (rhs : Expr) :
    (env.config.shadowing = false → (env.map id).isSome = true →
      Stmt.resolve (.assign id rhs) env = (.error .shadowing, env))
    ∧ (env.config.recursion = false →
        (env.config.shadowing = true ∨ (env.map id).isSome = false) →
        contains_node (substSpec rhs env) id = true →
        Stmt.resolve (.assign id rhs) env = (.error .recursion, env))
    ∧ ((env.config.shadowing = true ∨ (env.map id).isSome = false) →
        (env.config.recursion = true ∨ contains_node (substSpec rhs env) id = false) →
        Stmt.resolve (.assign id rhs) env =
          (.ok (.assign id (substSpec rhs env)),
            { env with map := fun k => if k = id then some (substSpec rhs env) else env.map k }))
    ∧ (∀ e x, contains_node e x = true ↔ x ∈ nodes e) := by
  refine ⟨?_, ?_, ?_, fun e x => (mem_nodes e x).symm⟩
  · intro hs hb
    simp [Stmt.resolve, Expr.resolve_eq_subst, Env.insert, hs, hb]
  · intro hr hd hc
    rcases hd with hd | hd <;>
      simp [Stmt.resolve, Expr.resolve_eq_subst, Env.insert, hr, hd, hc]
  · intro hd hr
    rcases hd with hd | hd <;> rcases hr with hr | hr <;>
      simp [Stmt.resolve, Expr.resolve_eq_subst, Env.insert, hd, hr]

/-- Witness for C5: in the environment binding G under the default
configuration, reassigning G reports the shadowing error and leaves the
environment unchanged. -/
theorem claim_C5_witness :
    Stmt.resolve (.assign "G" (.node "A")) envG = (.error .shadowing, envG) :=
  (claim_C5_assignment_resolution envG "G" (.node "A")).1 (by decide) (by decide)

/-- C6: the two literal deduplication cases. In a connected context the five
members AB, ABC, A, CD, CDE flatten into one clique and normalize to the
single connected group ABCDE; in a disconnected context the subsumed
components are dropped and the result keeps ABC and CDE. -/
theorem claim_C6_dedup_literal_cases :
    normalize 32 (.connected [.connected [eA, eB], .connected [eA, eB, eC], eA,
        .connected [eC, eD], .connected [eC, eD, eE]]) =
      some (.connected [eA, eB, eC, eD, eE]) ∧
    normalize 32 (.disconnected [.connected [eA, eB], .connected [eA, eB, eC], eA,
        .connected [eC, eD], .connected [eC, eD, eE]]) =
      some (.disconnected [.connected [eA, eB, eC], .connected [eC, eD, eE]]) := by decide

/-- C7: the literal distribution case: the connected group of A with the
disconnected pair B, C normalizes to the disconnected value with components
AB and AC, exactly in this sibling order. -/
theorem claim_C7_distribution_literal :
    normalize 32 (.connected [eA, .disconnected [eB, eC]]) =
      some (.disconnected [.connected [eA, eB], .connected [eA, eC]]) := by decide

/-- C8: the collapse laws: a singleton connected or disconnected group
normalizes to its sole leaf, and the empty connected and disconnected groups
both normalize to the empty disconnected value. -/
theorem claim_C8_collapse_laws :
    normalize 32 (.connected [eA]) = some eA ∧
    normalize 32 (.disconnected [eA]) = some eA ∧
    normalize 32 (.connected []) = some (.disconnected []) ∧
    normalize 32 (.disconnected []) = some (.disconnected []) := by decide

/-- C9: resolving an expression is exactly the one-level substitution
`substSpec`: it never fails, a leaf resolves to the current binding when one
exists and to itself otherwise, groupings resolve their members recursively
rebuilding the same grouping kind without normalizing, and resolving against
an empty environment returns the expression unchanged. -/
theorem claim_C9_resolve_is_substitution (e : Expr) (env : Env) (cfg : Config)
    (id : Node) (es : List Expr) :
    Expr.resolve e env = .ok (substSpec e env)
    ∧ Expr.resolve (.node id) env = .ok ((env.map id).getD (.node id))
    ∧ Expr.resolve (.connected es) env = .ok (.connected (substSpecList es env))
    ∧ Expr.resolve (.disconnected es) env = .ok (.disconnected (substSpecList es env))
    ∧ Expr.resolve e (Env.new cfg) = .ok e := by
  refine ⟨Expr.resolve_eq_subst e env, ?_, ?_, ?_, ?_⟩
  · show Except.ok (env.lookup id) = _
    unfold Env.lookup
    cases env.map id <;> rfl
  · rw [Expr.resolve_eq_subst, substSpec]
  · rw [Expr.resolve_eq_subst, substSpec]
  · rw [Expr.resolve_eq_subst e (Env.new cfg), substSpec_empty]

/-- C10: `Env::insert` is atomic on error: whenever it reports an error the
environment is returned unchanged, so a failing assignment leaves the
environment exactly as it was, and when both violations apply the shadowing
error is reported because its check comes first. -/
theorem claim_C10_insert_atomic (env : Env) (id : Node) (e : Expr) (err : Error)
    (env2 : Env) (s : Stmt) :
    (Env.insert env id e = (.error err, env2) → env2 = env)
    ∧ (Stmt.resolve s env = (.error err, env2) → env2 = env)
    ∧ (env.config.shadowing = false → env.config.recursion = false →
        (env.map id).isSome = true → contains_node e id = true →
        Env.insert env id e = (.error .shadowing, env)) := by
  refine ⟨insert_error_eq env id e err env2, stmt_resolve_error_eq env s err env2, ?_⟩
  intro hs hr hb hc
  simp [Env.insert, hs, hb]

/-- Witness for C10: inserting a self-referencing binding for the already
bound node G under the default configuration reports the shadowing error, not
the recursion error, and returns the unchanged environment. -/
theorem claim_C10_witness :
    Env.insert envG "G" (.node "G") = (.error .shadowing, envG) :=
  ((claim_C10_insert_atomic envG "G" (.node "G") Error.shadowing envG
    (.assign "G" (.node "G"))).2.2) (by decide) (by decide) (by decide) (by decide)

end Grapl
